import Mathlib

/-!
# Verification of the dc-federal-court-drafter rule index and CourtListener client

Shallow embedding of the two components the specification covers:

* the rule index of `src/mcp-server/src/index.ts` (`loadRules`, the `get_rule`
  and `search_rules` tool handlers), and
* the CourtListener client of `src/mcp-server/src/courtlistener.ts`
  (`fetchApi` parameter serialization and error construction, and
  `lookupCitation` with its citation-regex parse and full-text fallback).

JavaScript strings are modelled as `String`/`List Char`; the network is passed
in explicitly as a function argument; thrown exceptions are `Except`.
-/

namespace DCDrafter

/-! ## Character classes

ASCII-level models of the character classes used by the source:
`\d`, JavaScript `\s`, and the reporter class `[A-Za-z0-9.\s]` of the
citation regex in `CourtListenerClient.lookupCitation`. -/

/-- JavaScript `\d`: the ASCII digits `0`-`9`. -/
def isDigitC (c : Char) : Bool := 48 ≤ c.toNat && c.toNat ≤ 57

/-- JavaScript `\s`: whitespace, line terminators, and the Unicode
space separators recognised by ECMAScript. -/
def isJsWs (c : Char) : Bool :=
  c.toNat = 32 || c.toNat = 9 || c.toNat = 10 || c.toNat = 11 || c.toNat = 12 ||
  c.toNat = 13 || c.toNat = 160 || c.toNat = 5760 ||
  (8192 ≤ c.toNat && c.toNat ≤ 8202) ||
  c.toNat = 8232 || c.toNat = 8233 || c.toNat = 8239 || c.toNat = 8287 ||
  c.toNat = 12288 || c.toNat = 65279

/-- The citation regex's reporter class `[A-Za-z0-9.\s]`. -/
def isReporterChar (c : Char) : Bool :=
  (65 ≤ c.toNat && c.toNat ≤ 90) || (97 ≤ c.toNat && c.toNat ≤ 122) ||
  isDigitC c || c.toNat = 46 || isJsWs c

theorem not_isJsWs_of_isDigitC {c : Char} (h : isDigitC c = true) : isJsWs c = false := by
  simp only [isDigitC, Bool.and_eq_true, decide_eq_true_eq] at h
  simp only [isJsWs, Bool.or_eq_false_iff, Bool.and_eq_false_iff, decide_eq_false_iff_not]
  omega

theorem isReporterChar_of_isDigitC {c : Char} (h : isDigitC c = true) :
    isReporterChar c = true := by
  simp [isReporterChar, h]

theorem isReporterChar_of_isJsWs {c : Char} (h : isJsWs c = true) :
    isReporterChar c = true := by
  simp [isReporterChar, h]

/-! ## List-of-characters helpers -/

/-- Length of the maximal prefix of `l` whose characters satisfy `p`
(the longest amount a `p+` regex atom can consume at this position). -/
def runLen (p : Char → Bool) : List Char → Nat
  | [] => 0
  | c :: t => if p c then runLen p t + 1 else 0

theorem runLen_all {p : Char → Bool} {l : List Char} (h : ∀ c ∈ l, p c = true) :
    runLen p l = l.length := by
  induction l with
  | nil => rfl
  | cons c t ih =>
      simp only [runLen, h c (List.mem_cons_self c t), if_true, List.length_cons]
      rw [ih fun x hx => h x (List.mem_cons_of_mem c hx)]

theorem runLen_append_not {p : Char → Bool} {l₁ : List Char} {c : Char} {l₂ : List Char}
    (h₁ : ∀ x ∈ l₁, p x = true) (hc : p c = false) :
    runLen p (l₁ ++ c :: l₂) = l₁.length := by
  induction l₁ with
  | nil => simp [runLen, hc]
  | cons a t ih =>
      simp only [List.cons_append, runLen, h₁ a (List.mem_cons_self a t), if_true,
        List.length_cons]
      rw [show t.append (c :: l₂) = t ++ c :: l₂ from rfl,
        ih fun x hx => h₁ x (List.mem_cons_of_mem a hx)]

theorem all_take_of_le_runLen {p : Char → Bool} {l : List Char} {k : Nat}
    (h : k ≤ runLen p l) : ∀ c ∈ l.take k, p c = true := by
  induction l generalizing k with
  | nil => simp
  | cons a t ih =>
      cases k with
      | zero => simp
      | succ k =>
          simp only [runLen] at h
          by_cases hp : p a = true
          · simp only [hp, if_true] at h
            intro c hc
            simp only [List.take_succ_cons, List.mem_cons] at hc
            rcases hc with rfl | hc
            · exact hp
            · exact ih (Nat.le_of_succ_le_succ h) c hc
          · simp only [Bool.not_eq_true] at hp
            simp [hp] at h

/-- JavaScript `String.prototype.includes`: `needle` occurs as a contiguous
substring of `hay` (the empty needle occurs in every string). -/
def listContains (hay needle : List Char) : Bool :=
  needle.isPrefixOf hay ||
    match hay with
    | [] => false
    | _ :: t => listContains t needle

theorem listContains_nil (hay : List Char) : listContains hay [] = true := by
  cases hay <;> simp [listContains, List.isPrefixOf]

theorem listContains_of_isPrefix {hay needle : List Char}
    (h : needle.isPrefixOf hay = true) : listContains hay needle = true := by
  cases hay <;> simp [listContains, h]

theorem isPrefixOf_append_right (needle tail : List Char) :
    needle.isPrefixOf (needle ++ tail) = true := by
  induction needle with
  | nil => simp [List.isPrefixOf]
  | cons c t ih => simp [List.isPrefixOf, ih]

theorem listContains_append_left {hay needle : List Char} (pre : List Char)
    (h : listContains hay needle = true) :
    listContains (pre ++ hay) needle = true := by
  induction pre with
  | nil => simpa using h
  | cons c t ih =>
      simp only [List.cons_append, listContains]
      rw [show (t.append hay) = t ++ hay from rfl, ih]
      simp

theorem listContains_between (pre needle suf : List Char) :
    listContains (pre ++ needle ++ suf) needle = true := by
  rw [List.append_assoc]
  exact listContains_append_left pre
    (listContains_of_isPrefix (isPrefixOf_append_right needle suf))

theorem exists_infix_of_listContains {hay needle : List Char}
    (h : listContains hay needle = true) :
    ∃ pre suf, hay = pre ++ needle ++ suf := by
  induction hay with
  | nil =>
      simp only [listContains, Bool.or_false] at h
      rcases List.isPrefixOf_iff_prefix.mp h with ⟨suf, hsuf⟩
      rcases List.append_eq_nil.mp hsuf with ⟨rfl, rfl⟩
      exact ⟨[], [], rfl⟩
  | cons c t ih =>
      simp only [listContains, Bool.or_eq_true] at h
      rcases h with h | h
      · rcases List.isPrefixOf_iff_prefix.mp h with ⟨suf, hsuf⟩
        exact ⟨[], suf, by simp [← hsuf]⟩
      · rcases ih h with ⟨pre, suf, hps⟩
        exact ⟨c :: pre, suf, by simp [hps]⟩

/-- ASCII model of JavaScript `String.prototype.toLowerCase`:
maps `A`-`Z` to `a`-`z` and leaves every other character unchanged. -/
def lowerChar (c : Char) : Char :=
  if 65 ≤ c.toNat ∧ c.toNat ≤ 90 then Char.ofNat (c.toNat + 32) else c

def lowerL (l : List Char) : List Char := l.map lowerChar

theorem lowerL_append (a b : List Char) : lowerL (a ++ b) = lowerL a ++ lowerL b :=
  List.map_append lowerChar a b

/-! ## Backtracking combinators

`matchCitationRegex` below reproduces the JavaScript backtracking search for
the anchored pattern `^(\d+)\s+([A-Za-z0-9.\s]+?)\s+(\d+)$`.  A greedy `+`
atom tries the candidate lengths `n, n-1, …, 1` in that order (`firstDown`);
a lazy `+?` atom tries `i, i+1, …` (`firstFrom`). -/

def firstDown (f : Nat → Option α) : Nat → Option α
  | 0 => none
  | n + 1 =>
    match f (n + 1) with
    | some v => some v
    | none => firstDown f n

def firstFrom (f : Nat → Option α) (i : Nat) : Nat → Option α
  | 0 => none
  | fuel + 1 =>
    match f i with
    | some v => some v
    | none => firstFrom f (i + 1) fuel

theorem firstDown_eq_none {f : Nat → Option α} {n : Nat}
    (h : ∀ k, 1 ≤ k → k ≤ n → f k = none) : firstDown f n = none := by
  induction n with
  | zero => rfl
  | succ n ih =>
      simp only [firstDown, h (n + 1) (Nat.succ_le_succ (Nat.zero_le n)) (Nat.le_refl _)]
      exact ih fun k h1 h2 => h k h1 (Nat.le_succ_of_le h2)

theorem firstDown_of_some {f : Nat → Option α} {n : Nat} {v : α}
    (h : f (n + 1) = some v) : firstDown f (n + 1) = some v := by
  simp [firstDown, h]

theorem firstDown_some_inv {f : Nat → Option α} {n : Nat} {v : α}
    (h : firstDown f n = some v) : ∃ k, 1 ≤ k ∧ k ≤ n ∧ f k = some v := by
  induction n with
  | zero => simp [firstDown] at h
  | succ n ih =>
      simp only [firstDown] at h
      cases hf : f (n + 1) with
      | some w =>
          rw [hf] at h
          exact ⟨n + 1, Nat.succ_le_succ (Nat.zero_le n), Nat.le_refl _, by
            cases h; exact hf⟩
      | none =>
          rw [hf] at h
          rcases ih h with ⟨k, h1, h2, h3⟩
          exact ⟨k, h1, Nat.le_succ_of_le h2, h3⟩

theorem firstFrom_some_inv {f : Nat → Option α} {v : α} :
    ∀ {i fuel : Nat}, firstFrom f i fuel = some v →
      ∃ k, i ≤ k ∧ k < i + fuel ∧ f k = some v := by
  intro i fuel
  induction fuel generalizing i with
  | zero => intro h; simp [firstFrom] at h
  | succ fuel ih =>
      intro h
      simp only [firstFrom] at h
      cases hf : f i with
      | some w =>
          rw [hf] at h
          exact ⟨i, Nat.le_refl _, by omega, by cases h; exact hf⟩
      | none =>
          rw [hf] at h
          rcases ih h with ⟨k, h1, h2, h3⟩
          exact ⟨k, by omega, by omega, h3⟩

theorem firstFrom_first_some {f : Nat → Option α} {v : α} :
    ∀ {i fuel j : Nat}, i ≤ j → j < i + fuel →
      (∀ k, i ≤ k → k < j → f k = none) → f j = some v →
      firstFrom f i fuel = some v := by
  intro i fuel
  induction fuel generalizing i with
  | zero => intro j h1 h2; omega
  | succ fuel ih =>
      intro j h1 h2 hnone hsome
      simp only [firstFrom]
      rcases Nat.eq_or_lt_of_le h1 with rfl | hlt
      · simp [hsome]
      · rw [hnone i (Nat.le_refl _) hlt]
        exact ih hlt (by omega) (fun k hk1 hk2 => hnone k (by omega) hk2) hsome

/-! ## The citation regex

`CourtListenerClient.lookupCitation` (src/mcp-server/src/courtlistener.ts)
parses its argument with
`citation.match(/^(\d+)\s+([A-Za-z0-9.\s]+?)\s+(\d+)$/)`.
`matchCitationRegex` returns the three capture groups of the match JavaScript
produces, or `none` when the pattern does not match. -/

/-- Stage 5, the `(\d+)$` atom: `rest4` is what is left after the second
`\s+`; greedily pick the page digits and require the end of the string. -/
def pageStage (cs rest2 rest4 : List Char) (n1 n3 : Nat) :
    Option (String × String × String) :=
  firstDown (fun n5 =>
    if rest4.drop n5 = [] then
      some (String.mk (cs.take n1), String.mk (rest2.take n3),
        String.mk (rest4.take n5))
    else none)
    (runLen isDigitC rest4)

/-- Stage 4, the second `\s+` atom: `rest3` is what is left after the
reporter capture. -/
def wsPageStage (cs rest2 rest3 : List Char) (n1 n3 : Nat) :
    Option (String × String × String) :=
  firstDown (fun n4 => pageStage cs rest2 (rest3.drop n4) n1 n3)
    (runLen isJsWs rest3)

/-- Stage 3, the lazy `([A-Za-z0-9.\s]+?)` atom: `rest2` is what is left
after the first `\s+`. -/
def reporterStage (cs rest2 : List Char) (n1 : Nat) :
    Option (String × String × String) :=
  firstFrom (fun n3 => wsPageStage cs rest2 (rest2.drop n3) n1 n3)
    1 (runLen isReporterChar rest2)

/-- Stage 2, the first `\s+` atom: `rest1` is what is left after the
volume capture. -/
def wsReporterStage (cs rest1 : List Char) (n1 : Nat) :
    Option (String × String × String) :=
  firstDown (fun n2 => reporterStage cs (rest1.drop n2) n1)
    (runLen isJsWs rest1)

def matchCitationRegex (s : String) : Option (String × String × String) :=
  firstDown (fun n1 => wsReporterStage s.data (s.data.drop n1) n1)
    (runLen isDigitC s.data)

example : matchCitationRegex "550 U.S. 544" = some ("550", "U.S.", "544") := by rfl
example : matchCitationRegex "123 F.3d 456" = some ("123", "F.3d", "456") := by rfl
example : matchCitationRegex "12 So 2d 345" = some ("12", "So 2d", "345") := by rfl
example : matchCitationRegex "Twombly" = none := by rfl
example : matchCitationRegex "550 U.S. 544a" = none := by rfl

/-! ## CourtListener client: request primitive (`fetchApi`) -/

/-- A defined value of the `params` record accepted by
`CourtListenerClient.fetchApi` (`string | number | boolean`); an absent /
`undefined` entry is modelled as `Option.none` around this type. -/
inductive ParamValue where
  | str (s : String)
  | num (n : Int)
  | bool (b : Bool)
  deriving DecidableEq, Repr

/-- JavaScript `String(value)` on a `ParamValue` (integral numbers only,
as produced by `parseInt` and the integer-valued parameters the client uses). -/
def paramToString : ParamValue → String
  | .str s => s
  | .num n => toString n
  | .bool b => if b then "true" else "false"

/-- The query-parameter loop of `fetchApi`: every entry with a defined value
is set on the outgoing query string via `url.searchParams.set(key,
String(value))`; `undefined` entries are skipped. -/
def serializeParams (params : List (String × Option ParamValue)) :
    List (String × String) :=
  params.filterMap fun kv =>
    match kv.2 with
    | some v => some (kv.1, paramToString v)
    | none => none

/-- An HTTP response as seen by `fetchApi`: a status code and the body text. -/
structure HttpResponse where
  status : Nat
  body : String
  deriving DecidableEq, Repr

/-- `Response.ok` of the Fetch standard: status in the range 200-299. -/
def statusOk (status : Nat) : Bool := 200 ≤ status && status ≤ 299

/-- `CourtListenerClient.fetchApi`, with the network passed in as `transport`
(from endpoint and serialized query parameters to the HTTP response).
A non-2xx response throws
`new Error("CourtListener API error (" + status + "): " + errorText)`;
a 2xx response hands the body to the caller. -/
def fetchApi (transport : String → List (String × String) → HttpResponse)
    (endpoint : String) (params : List (String × Option ParamValue)) :
    Except String String :=
  let response := transport endpoint (serializeParams params)
  if statusOk response.status then
    .ok response.body
  else
    .error ("CourtListener API error (" ++ toString response.status ++ "): " ++
      response.body)

/-! ## CourtListener client: citation lookup -/

/-- `Citation` (src/mcp-server/src/courtlistener.ts). -/
structure Citation where
  id : Nat
  volume : Nat
  reporter : String
  page : String
  type : Nat
  cluster_id : Nat
  deriving DecidableEq, Repr

/-- `Opinion` (src/mcp-server/src/courtlistener.ts). -/
structure Opinion where
  id : Nat
  resource_uri : String
  cluster : String
  cluster_id : Nat
  author : Option String
  author_str : Option String
  per_curiam : Bool
  joined_by : List String
  type : String
  sha1 : String
  page_count : Option Nat
  download_url : Option String
  local_path : Option String
  plain_text : String
  html : Option String
  html_lawbox : Option String
  html_columbia : Option String
  html_with_citations : Option String
  extracted_by_ocr : Bool
  opinions_cited : List String
  date_created : String
  date_modified : String
  deriving DecidableEq, Repr

/-- `OpinionCluster` (src/mcp-server/src/courtlistener.ts). -/
structure OpinionCluster where
  id : Nat
  resource_uri : String
  docket : String
  docket_id : Nat
  panel : List String
  non_participating_judges : List String
  judges : String
  per_curiam : Bool
  date_filed : String
  date_filed_is_approximate : Bool
  slug : String
  citation_count : Nat
  precedential_status : String
  date_blocked : Option String
  blocked : Bool
  filepath_json_harvard : Option String
  arguments : Option String
  headnotes : Option String
  summary : Option String
  disposition : Option String
  history : Option String
  other_dates : Option String
  cross_reference : Option String
  correction : Option String
  case_name : String
  case_name_short : String
  case_name_full : String
  attorneys : Option String
  nature_of_suit : Option String
  posture : Option String
  syllabus : Option String
  headmatter : Option String
  procedural_history : Option String
  citations : List Citation
  sub_opinions : List Opinion
  deriving DecidableEq, Repr

/-- `CitationLookupResult` (src/mcp-server/src/courtlistener.ts). -/
structure CitationLookupResult where
  count : Nat
  results : List OpinionCluster
  deriving DecidableEq, Repr

/-- `SearchResult` (src/mcp-server/src/courtlistener.ts). -/
structure SearchResult where
  absolute_url : String
  caseName : String
  caseNameShort : String
  citation : List String
  citeCount : Nat
  court : String
  court_citation_string : String
  court_exact : String
  court_id : String
  dateFiled : String
  dateArgued : Option String
  docket_absolute_url : String
  docket_id : Nat
  id : Nat
  judge : String
  lexisCite : String
  neutralCite : String
  sibling_ids : List Nat
  snippet : String
  status : String
  suitNature : String
  deriving DecidableEq, Repr

/-- `SearchResponse` (src/mcp-server/src/courtlistener.ts). -/
structure SearchResponse where
  count : Nat
  next : Option String
  previous : Option String
  results : List SearchResult
  deriving DecidableEq, Repr

/-- `FullTextSearchParams` (src/mcp-server/src/courtlistener.ts); optional
fields are `Option` and absent (`none`) when the caller omits them. -/
structure FullTextSearchParams where
  q : String
  type : String
  court : Option String := none
  filed_after : Option String := none
  filed_before : Option String := none
  cited_gt : Option Int := none
  cited_lt : Option Int := none
  order_by : Option String := none
  stat_Precedential : Option String := none
  stat_Non_Precedential : Option String := none
  page : Option Int := none
  deriving DecidableEq, Repr

/-- The query sent by the direct-citation branch of `lookupCitation`:
`{ volume: parseInt(volume), reporter: reporter.trim(), page: page }`. -/
structure CitationQuery where
  volume : Nat
  reporter : String
  page : String
  deriving DecidableEq, Repr

/-- The remote service as `lookupCitation` sees it: the `/citations/`
endpoint and the `/search/` endpoint, each behind `fetchApi` plus JSON
parsing of the response body, hence `Except` for thrown errors. -/
structure CitationServer where
  citations : CitationQuery → Except String CitationLookupResult
  search : FullTextSearchParams → Except String SearchResponse

/-- Numeric value of a digit string: JavaScript `parseInt` on the all-digit
volume capture (exact for values in the safe-integer range). -/
def natOfDigits (l : List Char) : Nat :=
  l.foldl (fun acc c => acc * 10 + (c.toNat - 48)) 0

/-- JavaScript `String.prototype.trim`: strip leading and trailing `\s`. -/
def jsTrim (s : String) : String :=
  String.mk (((s.data.dropWhile isJsWs).reverse.dropWhile isJsWs).reverse)

/-- Which external call `lookupCitation` makes for a given citation string:
the direct `/citations/` query when the regex matches, else the quoted
full-text search against opinions (`type: "o"`). -/
inductive CitationLookupAction where
  | citationsQuery (query : CitationQuery)
  | searchFallback (params : FullTextSearchParams)
  deriving DecidableEq, Repr

def lookupCitationAction (citation : String) : CitationLookupAction :=
  match matchCitationRegex citation with
  | some (volume, reporter, page) =>
      .citationsQuery
        { volume := natOfDigits volume.data, reporter := jsTrim reporter,
          page := page }
  | none =>
      .searchFallback { q := "\"" ++ citation ++ "\"", type := "o" }

/-- `CourtListenerClient.lookupCitation`: parse the citation with the regex;
on a match, query the citations endpoint with the parsed triple; otherwise
fall back to a quoted full-text search against opinions and return the
search's count with an empty results list. -/
def lookupCitation (server : CitationServer) (citation : String) :
    Except String CitationLookupResult :=
  match matchCitationRegex citation with
  | some (volume, reporter, page) =>
      server.citations
        { volume := natOfDigits volume.data, reporter := jsTrim reporter,
          page := page }
  | none => do
      let searchResult ← server.search { q := "\"" ++ citation ++ "\"", type := "o" }
      .ok { count := searchResult.count, results := [] }

/-! ## Rule index (src/mcp-server/src/index.ts) -/

/-- A JSON value, for the `unknown`-typed entries of a chunk's
`requirements` record (numbers as integers; the rule corpus uses none
that are not). -/
inductive Json where
  | null
  | bool (b : Bool)
  | num (n : Int)
  | str (s : String)
  | arr (elems : List Json)
  | obj (members : List (String × Json))
  deriving Repr

/-- `RuleChunk` (src/mcp-server/src/index.ts). -/
structure RuleChunk where
  id : String
  «section» : String
  title : String
  content : String
  requirements : Option (List (String × Json)) := none
  keywords : Option (List String) := none
  deriving Repr

/-- `RuleFile` (src/mcp-server/src/index.ts). -/
structure RuleFile where
  rule_number : String
  title : String
  chunks : List RuleChunk
  deriving Repr

/-- The module-level mutable state: `rulesCache` (a `Map`, i.e. an
insertion-ordered association list) and `allChunks`. -/
structure RulesState where
  rulesCache : List (String × RuleFile)
  allChunks : List RuleChunk
  deriving Repr

def emptyRulesState : RulesState := { rulesCache := [], allChunks := [] }

/-- JavaScript `Map.prototype.set`: replace in place if the key is present
(keeping its position), else append. -/
def mapSet (m : List (String × RuleFile)) (k : String) (v : RuleFile) :
    List (String × RuleFile) :=
  if m.any (fun kv => kv.1 == k) then
    m.map (fun kv => if kv.1 == k then (k, v) else kv)
  else
    m ++ [(k, v)]

/-- JavaScript `Map.prototype.get` on the insertion-ordered model. -/
def mapGet (m : List (String × RuleFile)) (k : String) : Option RuleFile :=
  (m.find? (fun kv => kv.1 == k)).map (fun kv => kv.2)

/-- `loadRules`: read and parse each rule file in directory order, inserting
it into `rulesCache` keyed by its `rule_number` and appending its chunks to
`allChunks`.  A file that fails to read or parse (`none`) throws inside the
single `try` block that wraps the whole loop, so the loop stops there; the
`catch` only logs, so the caller never sees an error and the files already
processed stay loaded. -/
def loadRules : List (Option RuleFile) → RulesState → RulesState
  | [], st => st
  | none :: _, st => st
  | some rule :: rest, st =>
      loadRules rest
        { rulesCache := mapSet st.rulesCache rule.rule_number rule,
          allChunks := st.allChunks ++ rule.chunks }

/-- `hay.includes(needle)` on Lean strings. -/
def strIncludes (hay needle : String) : Bool := listContains hay.data needle.data

/-- `s.toLowerCase()` on Lean strings (ASCII model). -/
def toLowerS (s : String) : String := String.mk (lowerL s.data)

/-- `s.replace(/\s+/g, "_")`: every maximal whitespace run becomes one
underscore.  `emittedWs` records whether the current run has already
produced its underscore. -/
def wsRunsToUnderscore : Bool → List Char → List Char
  | _, [] => []
  | emittedWs, c :: t =>
      if isJsWs c then
        if emittedWs then wsRunsToUnderscore true t
        else '_' :: wsRunsToUnderscore true t
      else c :: wsRunsToUnderscore false t

def replaceWsWithUnderscore (s : String) : String :=
  String.mk (wsRunsToUnderscore false s.data)

example : replaceWsWithUnderscore "lcvr 7" = "lcvr_7" := by rfl
example : replaceWsWithUnderscore "a  b c" = "a_b_c" := by rfl

/-- Result shape of the `get_rule` tool handler: the full rule document
(exact or loose identifier match), the matching chunks (subsection search),
or the not-found message carrying the known rule identifiers. -/
inductive GetRuleResult where
  | rule (r : RuleFile)
  | chunks (query : String) (results : List RuleChunk)
  | notFound (query : String) (knownIdentifiers : List String)
  deriving Repr

/-- The `get_rule` tool handler (`case "get_rule"` in
src/mcp-server/src/index.ts): exact map lookup; else the first entry (in
insertion order) whose key contains the query or is contained in it,
case-insensitively; else all chunks whose section contains the query or
whose id contains the query with whitespace runs replaced by underscores;
else the not-found message listing the cache's keys. -/
def get_rule (st : RulesState) (rule_number : String) : GetRuleResult :=
  let ruleNumber := rule_number
  match mapGet st.rulesCache ruleNumber with
  | some rule => .rule rule
  | none =>
      match st.rulesCache.find? (fun kv =>
          strIncludes (toLowerS kv.1) (toLowerS ruleNumber) ||
          strIncludes (toLowerS ruleNumber) (toLowerS kv.1)) with
      | some kv => .rule kv.2
      | none =>
          let matchingChunks := st.allChunks.filter (fun chunk =>
            strIncludes (toLowerS chunk.«section») (toLowerS ruleNumber) ||
            strIncludes (toLowerS chunk.id)
              (replaceWsWithUnderscore (toLowerS ruleNumber)))
          if matchingChunks.length > 0 then
            .chunks ruleNumber matchingChunks
          else
            .notFound ruleNumber (st.rulesCache.map (fun kv => kv.1))

/-- `Array.prototype.join(" ")`. -/
def joinSpace : List String → String
  | [] => ""
  | [s] => s
  | s :: rest => s ++ " " ++ joinSpace rest

/-- The searchable text of a chunk, as built by the `search_rules` handler:
`` `${chunk.title} ${chunk.content} ${chunk.keywords?.join(" ") || ""}` ``. -/
def searchText (chunk : RuleChunk) : String :=
  chunk.title ++ " " ++ chunk.content ++ " " ++
    (match chunk.keywords with
     | some ks => joinSpace ks
     | none => "")

/-- The chunks matching a query: `allChunks.filter(...)` with the lowered
searchable text containing the lowered query. -/
def searchMatches (st : RulesState) (query : String) : List RuleChunk :=
  let q := toLowerS query
  st.allChunks.filter (fun chunk => strIncludes (toLowerS (searchText chunk)) q)

/-- The projection applied to each matching chunk in the handler's result
(`section`, `title`, `content`, `requirements`; id and keywords omitted). -/
structure SearchRuleHit where
  «section» : String
  title : String
  content : String
  requirements : Option (List (String × Json))
  deriving Repr

def projectChunk (chunk : RuleChunk) : SearchRuleHit :=
  { «section» := chunk.«section», title := chunk.title,
    content := chunk.content, requirements := chunk.requirements }

/-- Result of the `search_rules` tool handler. -/
structure SearchRulesResult where
  query : String
  result_count : Nat
  results : List SearchRuleHit
  deriving Repr

/-- The `search_rules` tool handler (`case "search_rules"` in
src/mcp-server/src/index.ts). -/
def search_rules (st : RulesState) (queryArg : String) : SearchRulesResult :=
  let query := toLowerS queryArg
  let results := searchMatches st queryArg
  { query := query, result_count := results.length,
    results := results.map projectChunk }

/-! ## Helper lemmas about the rule index -/

theorem find?_replaced_self {m : List (String × RuleFile)} {k : String} {v : RuleFile}
    (h : m.any (fun kv => kv.1 == k) = true) :
    (m.map (fun kv => if kv.1 == k then (k, v) else kv)).find? (fun kv => kv.1 == k)
      = some (k, v) := by
  induction m with
  | nil => simp at h
  | cons kv t ih =>
      by_cases hk : (kv.1 == k) = true
      · simp only [List.map_cons, if_pos hk]
        exact List.find?_cons_of_pos _ (by simp)
      · simp only [List.map_cons, if_neg hk]
        rw [List.find?_cons_of_neg _ (by simpa using hk)]
        apply ih
        simp only [List.any_cons, Bool.or_eq_true] at h
        exact h.resolve_left hk

theorem find?_replaced_ne {m : List (String × RuleFile)} {k k' : String} {v : RuleFile}
    (h : k' ≠ k) :
    (m.map (fun kv => if kv.1 == k' then (k', v) else kv)).find? (fun kv => kv.1 == k)
      = m.find? (fun kv => kv.1 == k) := by
  induction m with
  | nil => rfl
  | cons kv t ih =>
      by_cases hk' : (kv.1 == k') = true
      · have hne : ((k', v).1 == k) = false := by simpa using h
        have hne' : (kv.1 == k) = false := by
          have : kv.1 = k' := by simpa using hk'
          simpa [this] using h
        simp only [List.map_cons, if_pos hk']
        rw [List.find?_cons_of_neg _ (by simp [hne]),
          List.find?_cons_of_neg _ (by simp [hne']), ih]
      · simp only [List.map_cons, if_neg hk']
        cases hk : (kv.1 == k) with
        | true =>
            rw [List.find?_cons_of_pos (p := fun kv : String × RuleFile => kv.1 == k) _ hk,
              List.find?_cons_of_pos (p := fun kv : String × RuleFile => kv.1 == k) _ hk]
        | false =>
            rw [List.find?_cons_of_neg _ (by simp [hk]),
              List.find?_cons_of_neg _ (by simp [hk]), ih]

theorem find?_append_single_ne {m : List (String × RuleFile)} {k k' : String}
    {v : RuleFile} (h : k' ≠ k) :
    (m ++ [(k', v)]).find? (fun kv => kv.1 == k) = m.find? (fun kv => kv.1 == k) := by
  induction m with
  | nil => simp [List.find?, show (k' == k) = false by simpa using h]
  | cons kv t ih =>
      cases hk : (kv.1 == k) with
      | true =>
          rw [List.cons_append, List.find?_cons_of_pos (p := fun kv : String × RuleFile => kv.1 == k) _ hk,
            List.find?_cons_of_pos (p := fun kv : String × RuleFile => kv.1 == k) _ hk]
      | false =>
          rw [List.cons_append, List.find?_cons_of_neg _ (by simp [hk]),
            List.find?_cons_of_neg _ (by simp [hk]), ih]

theorem mapGet_mapSet_self (m : List (String × RuleFile)) (k : String) (v : RuleFile) :
    mapGet (mapSet m k v) k = some v := by
  unfold mapSet mapGet
  by_cases h : m.any (fun kv => kv.1 == k) = true
  · rw [if_pos h, find?_replaced_self h]
    rfl
  · rw [if_neg h]
    have hnone : m.find? (fun kv => kv.1 == k) = none := by
      rw [List.find?_eq_none]
      intro x hx hc
      exact h (List.any_eq_true.mpr ⟨x, hx, hc⟩)
    have : (m ++ [(k, v)]).find? (fun kv => kv.1 == k) = some (k, v) := by
      rw [List.find?_append, hnone]
      simp [List.find?]
    rw [this]
    rfl

theorem mapGet_mapSet_ne (m : List (String × RuleFile)) {k k' : String} (v : RuleFile)
    (h : k' ≠ k) : mapGet (mapSet m k' v) k = mapGet m k := by
  unfold mapSet mapGet
  by_cases hmem : m.any (fun kv => kv.1 == k') = true
  · rw [if_pos hmem, find?_replaced_ne h]
  · rw [if_neg hmem, find?_append_single_ne h]

theorem loadRules_mapGet_preserve (files : List RuleFile) :
    ∀ (st : RulesState) (k : String), (∀ g ∈ files, g.rule_number ≠ k) →
    mapGet (loadRules (files.map some) st).rulesCache k = mapGet st.rulesCache k := by
  induction files with
  | nil => intro st _ _; rfl
  | cons g rest ih =>
      intro st k h
      simp only [List.map_cons, loadRules]
      rw [ih _ k fun x hx => h x (List.mem_cons_of_mem g hx)]
      exact mapGet_mapSet_ne _ _ (h g (List.mem_cons_self g rest))

theorem loadRules_allChunks (files : List RuleFile) :
    ∀ st : RulesState, (loadRules (files.map some) st).allChunks
      = st.allChunks ++ (files.map (fun f => f.chunks)).flatten := by
  induction files with
  | nil => intro st; simp [loadRules]
  | cons g rest ih =>
      intro st
      simp only [List.map_cons, loadRules, List.flatten, ih]
      simp [List.append_assoc]

theorem eq_of_mem_of_nodup_keys {α β : Type} {l : List (α × β)}
    (h : (l.map Prod.fst).Nodup) {k : α} {a b : β}
    (ha : (k, a) ∈ l) (hb : (k, b) ∈ l) : a = b := by
  induction l with
  | nil => simp at ha
  | cons kv t ih =>
      simp only [List.map_cons, List.nodup_cons] at h
      rcases List.mem_cons.mp ha with ha' | ha'
      · rcases List.mem_cons.mp hb with hb' | hb'
        · exact (Prod.ext_iff.mp (ha'.trans hb'.symm)).2
        · exfalso
          apply h.1
          rw [← ha']
          show k ∈ t.map Prod.fst
          exact List.mem_map_of_mem Prod.fst hb'
      · rcases List.mem_cons.mp hb with hb' | hb'
        · exfalso
          apply h.1
          rw [← hb']
          show k ∈ t.map Prod.fst
          exact List.mem_map_of_mem Prod.fst ha'
        · exact ih h.2 ha' hb'

/-! ## Claim theorems: rule search with the empty query (C6) -/

theorem strIncludes_empty (hay : String) : strIncludes hay "" = true :=
  listContains_nil hay.data

theorem searchMatches_empty_query (st : RulesState) :
    searchMatches st "" = st.allChunks := by
  unfold searchMatches
  rw [List.filter_eq_self]
  intro c _
  exact strIncludes_empty _

/-- C6: for the empty-string query, `search_rules` returns every loaded
chunk exactly once (load called once on a corpus of well-formed documents),
in flattening order: document load order, then chunk order within each
document. -/
theorem search_rules_empty_query_returns_all (files : List RuleFile) :
    (search_rules (loadRules (files.map some) emptyRulesState) "").results
      = ((files.map (fun f => f.chunks)).flatten).map projectChunk := by
  unfold search_rules
  simp only [searchMatches_empty_query]
  rw [loadRules_allChunks]
  simp [emptyRulesState]

/-! ## Claim theorems: parameter serialization (C7) -/

/-- C7: in the query string built by `fetchApi`, an `undefined`-valued
parameter is never serialized (given the record's keys are unique, as
JavaScript object keys are), while an empty-string-valued parameter is
serialized as an empty-string-valued query parameter — distinguishable
from omission. -/
theorem serializeParams_undefined_vs_empty
    (params : List (String × Option ParamValue)) (k : String)
    (hnodup : (params.map Prod.fst).Nodup) :
    ((k, (none : Option ParamValue)) ∈ params →
      ∀ s, (k, s) ∉ serializeParams params) ∧
    ((k, some (ParamValue.str "")) ∈ params → (k, "") ∈ serializeParams params) := by
  constructor
  · intro hmem s hser
    rcases List.mem_filterMap.mp hser with ⟨⟨k', v?⟩, hmem', heq⟩
    cases v? with
    | none => simp at heq
    | some v =>
        simp only [Option.some.injEq, Prod.mk.injEq] at heq
        rcases heq with ⟨rfl, -⟩
        have := eq_of_mem_of_nodup_keys hnodup hmem hmem'
        simp at this
  · intro hmem
    exact List.mem_filterMap.mpr ⟨(k, some (ParamValue.str "")), hmem, rfl⟩

/-- Witness for C7 at a concrete parameter map
`{ q: "test", court: undefined, docket: "" }`. -/
theorem serializeParams_undefined_vs_empty_witness :
    (([("q", some (ParamValue.str "test")), ("court", none), ("docket", some (ParamValue.str ""))].map
        (Prod.fst (α := String) (β := Option ParamValue))).Nodup) ∧
    (∀ s, ("court", s) ∉ serializeParams
      [("q", some (ParamValue.str "test")), ("court", none),
        ("docket", some (ParamValue.str ""))]) ∧
    ("docket", "") ∈ serializeParams
      [("q", some (ParamValue.str "test")), ("court", none),
        ("docket", some (ParamValue.str ""))] := by
  refine ⟨by decide, ?_, ?_⟩
  · exact (serializeParams_undefined_vs_empty _ "court" (by decide)).1 (by decide)
  · exact (serializeParams_undefined_vs_empty _ "docket" (by decide)).2 (by decide)

/-! ## Claim theorems: non-2xx responses (C8) -/

theorem string_data_append (a b : String) : (a ++ b).data = a.data ++ b.data := rfl

/-- A substring occurrence survives appending on the right. -/
theorem listContains_append_right {hay needle : List Char} (suf : List Char)
    (h : listContains hay needle = true) :
    listContains (hay ++ suf) needle = true := by
  rcases exists_infix_of_listContains h with ⟨pre, s2, rfl⟩
  rw [List.append_assoc (pre ++ needle)]
  exact listContains_between pre needle (s2 ++ suf)

theorem listContains_append_self (pre needle : List Char) :
    listContains (pre ++ needle) needle = true := by
  have h := listContains_between pre needle []
  rwa [List.append_nil] at h

/-- C8: when the transport answers any request of the client's request
primitive with a non-2xx status, `fetchApi` (and with it every operation,
all of which are thin wrappers over it) fails with an error whose message
contains the numeric status code and the response body verbatim. -/
theorem fetchApi_non2xx_error
    (transport : String → List (String × String) → HttpResponse)
    (endpoint : String) (params : List (String × Option ParamValue))
    (h : statusOk (transport endpoint (serializeParams params)).status = false) :
    ∃ msg, fetchApi transport endpoint params = .error msg ∧
      strIncludes msg (toString (transport endpoint (serializeParams params)).status) = true ∧
      strIncludes msg (transport endpoint (serializeParams params)).body = true := by
  have hres : fetchApi transport endpoint params =
      .error ("CourtListener API error (" ++
        toString (transport endpoint (serializeParams params)).status ++ "): " ++
        (transport endpoint (serializeParams params)).body) := by
    simp [fetchApi, h]
  refine ⟨_, hres, ?_, ?_⟩
  · unfold strIncludes
    rw [string_data_append, string_data_append, string_data_append]
    exact listContains_append_right _
      (listContains_append_right _ (listContains_append_self _ _))
  · unfold strIncludes
    rw [string_data_append]
    exact listContains_append_self _ _

/-- Witness for C8: a 404 response with body `Not Found`. -/
theorem fetchApi_non2xx_error_witness :
    statusOk ((fun (_ : String) (_ : List (String × String)) =>
      HttpResponse.mk 404 "Not Found") "/dockets/5/" (serializeParams [])).status = false ∧
    ∃ msg, fetchApi (fun _ _ => HttpResponse.mk 404 "Not Found") "/dockets/5/" [] = .error msg ∧
      strIncludes msg (toString ((fun (_ : String) (_ : List (String × String)) =>
        HttpResponse.mk 404 "Not Found") "/dockets/5/" (serializeParams [])).status) = true ∧
      strIncludes msg ((fun (_ : String) (_ : List (String × String)) =>
        HttpResponse.mk 404 "Not Found") "/dockets/5/" (serializeParams [])).body = true :=
  ⟨by decide, fetchApi_non2xx_error (fun _ _ => HttpResponse.mk 404 "Not Found")
    "/dockets/5/" [] (by decide)⟩

/-! ## Claim theorems: citation fallback (C4) -/

/-- C4: on a citation string that does not match the
`<volume> <reporter> <page>` pattern, `lookupCitation` does not raise for
the malformed input: it performs a full-text search for the quoted string
against opinions, and returns the search's count together with an empty
results list. -/
theorem lookupCitation_fallback (server : CitationServer) (citation : String)
    (resp : SearchResponse)
    (hmatch : matchCitationRegex citation = none)
    (hsearch : server.search { q := "\"" ++ citation ++ "\"", type := "o" } = .ok resp) :
    lookupCitation server citation = .ok { count := resp.count, results := [] } := by
  unfold lookupCitation
  rw [hmatch]
  rw [hsearch]
  rfl

/-- Witness for C4 at the malformed citation `"Twombly"` and a server whose
search reports 7 matches. -/
theorem lookupCitation_fallback_witness :
    matchCitationRegex "Twombly" = none ∧
    lookupCitation
      { citations := fun _ => .error "unused",
        search := fun _ => .ok { count := 7, next := none, previous := none, results := [] } }
      "Twombly" = .ok { count := 7, results := [] } :=
  ⟨by rfl, lookupCitation_fallback _ "Twombly"
    { count := 7, next := none, previous := none, results := [] } (by rfl) (by rfl)⟩

/-! ## Claim theorems: load failure behaviour (C1) -/

theorem mapGet_mapSet_isSome (m : List (String × RuleFile)) (k k' : String)
    (v : RuleFile) (h : (mapGet m k).isSome = true) :
    (mapGet (mapSet m k' v) k).isSome = true := by
  by_cases hk : k' = k
  · subst hk
    rw [mapGet_mapSet_self]
    rfl
  · rw [mapGet_mapSet_ne _ _ hk]
    exact h

theorem loadRules_mapGet_isSome_mono (files : List (Option RuleFile)) :
    ∀ (st : RulesState) (k : String), (mapGet st.rulesCache k).isSome = true →
    (mapGet (loadRules files st).rulesCache k).isSome = true := by
  induction files with
  | nil => intro st k h; exact h
  | cons f rest ih =>
      intro st k h
      cases f with
      | none => exact h
      | some r => exact ih _ k (mapGet_mapSet_isSome _ k r.rule_number r h)

theorem loadRules_append_none (pre : List RuleFile) (post : List (Option RuleFile)) :
    ∀ st : RulesState,
      loadRules (pre.map some ++ none :: post) st = loadRules (pre.map some) st := by
  induction pre with
  | nil => intro st; rfl
  | cons g rest ih =>
      intro st
      simp only [List.map_cons, List.cons_append, loadRules]
      exact ih _

theorem loadRules_mem_isSome (pre : List RuleFile) :
    ∀ st : RulesState, ∀ f ∈ pre,
      (mapGet (loadRules (pre.map some) st).rulesCache f.rule_number).isSome = true := by
  induction pre with
  | nil => intro st f hf; simp at hf
  | cons g rest ih =>
      intro st f hf
      rcases List.mem_cons.mp hf with rfl | hf
      · simp only [List.map_cons, loadRules]
        apply loadRules_mapGet_isSome_mono
        rw [mapGet_mapSet_self]
        rfl
      · exact ih _ f hf

/-- C1 counterexample: for the corpus `[ruleA, malformed, ruleB]`, the claim
says the malformed document is skipped and `ruleB` (well-formed, readable) is
still loaded; in fact the single `try` around the whole load loop aborts the
iteration at the malformed document, so `ruleB` is absent from the index
while `ruleA` is present. -/
theorem loadRules_skips_rest_counterexample :
    mapGet (loadRules [some { rule_number := "LCvR 5.1", title := "Service and Filing of Pleadings", chunks := [] },
        none,
        some { rule_number := "LCvR 7", title := "Motions", chunks := [] }]
      emptyRulesState).rulesCache "LCvR 7" = none ∧
    mapGet (loadRules [some { rule_number := "LCvR 5.1", title := "Service and Filing of Pleadings", chunks := [] },
        none,
        some { rule_number := "LCvR 7", title := "Motions", chunks := [] }]
      emptyRulesState).rulesCache "LCvR 5.1"
      = some { rule_number := "LCvR 5.1", title := "Service and Filing of Pleadings", chunks := [] } :=
  ⟨rfl, rfl⟩

/-- C1 (amended): a malformed or unreadable document is not loaded and ends
the load there — every document before it is loaded into the index, every
document after it is skipped — and the operation never raises to the caller
(the load is a total function of the corpus; the exception is caught and
only logged). -/
theorem loadRules_failure_truncates (pre : List RuleFile)
    (post : List (Option RuleFile)) :
    loadRules (pre.map some ++ none :: post) emptyRulesState
      = loadRules (pre.map some) emptyRulesState ∧
    ∀ f ∈ pre,
      (mapGet (loadRules (pre.map some ++ none :: post) emptyRulesState).rulesCache
        f.rule_number).isSome = true := by
  refine ⟨loadRules_append_none pre post _, fun f hf => ?_⟩
  rw [loadRules_append_none pre post _]
  exact loadRules_mem_isSome pre _ f hf

/-- Witness for C1 (amended) at a two-good-one-bad corpus. -/
theorem loadRules_failure_truncates_witness :
    loadRules ([{ rule_number := "LCvR 5.2", title := "Filing", chunks := [] }].map some
        ++ none :: [some { rule_number := "LCvR 7.1", title := "Motions", chunks := [] }])
      emptyRulesState
      = loadRules ([{ rule_number := "LCvR 5.2", title := "Filing", chunks := [] }].map some)
        emptyRulesState ∧
    (mapGet (loadRules ([{ rule_number := "LCvR 5.2", title := "Filing", chunks := [] }].map some
        ++ none :: [some { rule_number := "LCvR 7.1", title := "Motions", chunks := [] }])
      emptyRulesState).rulesCache "LCvR 5.2").isSome = true :=
  ⟨(loadRules_failure_truncates _ _).1,
    (loadRules_failure_truncates
        [{ rule_number := "LCvR 5.2", title := "Filing", chunks := [] }]
        [some { rule_number := "LCvR 7.1", title := "Motions", chunks := [] }]).2
      _ (List.mem_cons_self _ _)⟩

/-! ## Claim theorems: identifier round trip (C5) -/

theorem loadRules_mapGet_of_mem (files : List RuleFile)
    (hnodup : (files.map (fun f => f.rule_number)).Nodup) :
    ∀ (st : RulesState), ∀ f ∈ files,
      mapGet (loadRules (files.map some) st).rulesCache f.rule_number = some f := by
  induction files with
  | nil => intro st f hf; simp at hf
  | cons g rest ih =>
      intro st f hf
      simp only [List.map_cons, List.nodup_cons] at hnodup
      rcases List.mem_cons.mp hf with rfl | hf
      · simp only [List.map_cons, loadRules]
        rw [loadRules_mapGet_preserve rest _ _ (fun x hx hc => hnodup.1 (by
          rw [← hc]
          exact List.mem_map_of_mem (fun f => f.rule_number) hx))]
        exact mapGet_mapSet_self _ _ _
      · exact ih hnodup.2 _ f hf

theorem get_rule_exact (st : RulesState) {k : String} {r : RuleFile}
    (h : mapGet st.rulesCache k = some r) : get_rule st k = .rule r := by
  unfold get_rule
  simp only [h]

/-- C5: after a single load of a corpus with unique rule identifiers, looking
any loaded identifier up with `get_rule` hits the exact-match branch and
returns the document exactly as loaded — same title, same chunk sequence in
the same order (it is the very `RuleFile` value that was inserted). -/
theorem get_rule_roundtrip (files : List RuleFile)
    (hnodup : (files.map (fun f => f.rule_number)).Nodup) :
    ∀ f ∈ files,
      get_rule (loadRules (files.map some) emptyRulesState) f.rule_number
        = .rule f := by
  intro f hf
  exact get_rule_exact _ (loadRules_mapGet_of_mem files hnodup _ f hf)

/-- Witness for C5 at a concrete two-document corpus. -/
theorem get_rule_roundtrip_witness :
    (([{ rule_number := "LCvR 5.1", title := "Filing", chunks := [] },
        { rule_number := "LCvR 7", title := "Motions",
          chunks := [{ id := "lcvr_7_a", «section» := "LCvR 7(a)", title := "Form",
                       content := "Each motion shall include a statement of points." }] }].map
        (fun f : RuleFile => f.rule_number)).Nodup) ∧
    get_rule
      (loadRules ([{ rule_number := "LCvR 5.1", title := "Filing", chunks := [] },
        { rule_number := "LCvR 7", title := "Motions",
          chunks := [{ id := "lcvr_7_a", «section» := "LCvR 7(a)", title := "Form",
                       content := "Each motion shall include a statement of points." }] }].map some)
        emptyRulesState) "LCvR 7"
      = .rule { rule_number := "LCvR 7", title := "Motions",
                chunks := [{ id := "lcvr_7_a", «section» := "LCvR 7(a)", title := "Form",
                             content := "Each motion shall include a statement of points." }] } :=
  ⟨by decide,
    get_rule_roundtrip _ (by decide) _
      (List.mem_cons_of_mem _ (List.mem_cons_self _ _))⟩

/-! ## Claim theorems: keyword search containment (C2) -/

theorem toLowerS_append (a b : String) :
    toLowerS (a ++ b) = toLowerS a ++ toLowerS b := by
  show String.mk (lowerL (a ++ b).data) = String.mk (lowerL a.data ++ lowerL b.data)
  rw [string_data_append, lowerL_append]

/-- The chunk used by the C2 counterexample: its searchable text
`"ab cd "` contains `"b c"` across the title/content boundary although
neither field does. -/
def chunkC2 : RuleChunk :=
  { id := "c2", «section» := "S", title := "ab", content := "cd" }

def stateC2 : RulesState :=
  loadRules [some { rule_number := "R1", title := "T", chunks := [chunkC2] }]
    emptyRulesState

/-- C2 counterexample: neither the title nor the content nor the (absent)
keywords of `chunkC2` contain `"b c"` case-insensitively, yet
`search_rules` includes the chunk for that query, because the query matches
the space-joined concatenation of the fields across a field boundary. -/
theorem search_rules_field_boundary_counterexample :
    strIncludes (toLowerS chunkC2.title) (toLowerS "b c") = false ∧
    strIncludes (toLowerS chunkC2.content) (toLowerS "b c") = false ∧
    chunkC2.keywords = none ∧
    chunkC2 ∈ searchMatches stateC2 "b c" := by
  refine ⟨by decide, by decide, rfl, ?_⟩
  rw [show searchMatches stateC2 "b c" = [chunkC2] from rfl]
  exact List.mem_cons_self _ _

/-- C2 (amended): if a chunk's `content` contains `s` case-insensitively
then `search(s)` includes the chunk; and if the space-joined concatenation
of its title, content and keywords does not contain `s` case-insensitively
then `search(s)` excludes it.  (The claim's per-field exclusion condition is
weakened to the concatenation, which is what the code matches against: a
query can match across field boundaries.) -/
theorem search_rules_substring (st : RulesState) (c : RuleChunk) (s : String)
    (hc : c ∈ st.allChunks) :
    (strIncludes (toLowerS c.content) (toLowerS s) = true →
      c ∈ searchMatches st s) ∧
    (strIncludes (toLowerS (searchText c)) (toLowerS s) = false →
      c ∉ searchMatches st s) := by
  constructor
  · intro h
    apply List.mem_filter.mpr
    refine ⟨hc, ?_⟩
    show strIncludes (toLowerS (searchText c)) (toLowerS s) = true
    unfold strIncludes at h ⊢
    have hdata : (toLowerS (searchText c)).data
        = lowerL c.title.data ++ lowerL " ".data ++ lowerL c.content.data
            ++ lowerL " ".data ++ lowerL (match c.keywords with
              | some ks => joinSpace ks
              | none => "").data := by
      show lowerL (searchText c).data = _
      unfold searchText
      simp only [string_data_append, lowerL_append, List.append_assoc]
    rw [hdata]
    apply listContains_append_right
    apply listContains_append_right
    exact listContains_append_left _ h
  · intro h hmem
    have := (List.mem_filter.mp hmem).2
    rw [searchMatches] at hmem
    exact absurd (List.of_mem_filter hmem) (by simp [h])

/-- Witness for C2 (amended): a page-limit chunk is found for `"45"`
(contained in its content) and excluded for `"zebra"` (contained nowhere in
its searchable text). -/
theorem search_rules_substring_witness :
    ({ id := "w", «section» := "LCvR 7(e)", title := "Page Limits",
       content := "A memorandum shall not exceed 45 pages." } : RuleChunk) ∈
      ({ rulesCache := [],
         allChunks := [{ id := "w", «section» := "LCvR 7(e)", title := "Page Limits",
                         content := "A memorandum shall not exceed 45 pages." }] } : RulesState).allChunks ∧
    ({ id := "w", «section» := "LCvR 7(e)", title := "Page Limits",
       content := "A memorandum shall not exceed 45 pages." } : RuleChunk) ∈
      searchMatches
        { rulesCache := [],
          allChunks := [{ id := "w", «section» := "LCvR 7(e)", title := "Page Limits",
                          content := "A memorandum shall not exceed 45 pages." }] } "45" ∧
    ({ id := "w", «section» := "LCvR 7(e)", title := "Page Limits",
       content := "A memorandum shall not exceed 45 pages." } : RuleChunk) ∉
      searchMatches
        { rulesCache := [],
          allChunks := [{ id := "w", «section» := "LCvR 7(e)", title := "Page Limits",
                          content := "A memorandum shall not exceed 45 pages." }] } "zebra" := by
  refine ⟨List.mem_cons_self _ _, ?_, ?_⟩
  · exact (search_rules_substring _ _ "45" (List.mem_cons_self _ _)).1 (by decide)
  · exact (search_rules_substring _ _ "zebra" (List.mem_cons_self _ _)).2 (by decide)

/-! ## Claim theorems: empty-identifier lookup (C10) -/

/-- The index used by the C10 counterexample: a first document keyed
`"LCvR 5.1"` and a second whose stated rule number is the empty string. -/
def stateC10 : RulesState :=
  loadRules
    [some { rule_number := "LCvR 5.1", title := "Filing", chunks := [] },
     some { rule_number := "", title := "Untitled", chunks := [] }]
    emptyRulesState

/-- C10 counterexample: with a stored key equal to the empty string, the
empty-identifier lookup hits the exact-match branch, so it is *not* the
first document in insertion order (`"LCvR 5.1"`) that is returned, contrary
to the claim's "the first document in insertion order is returned". -/
theorem get_rule_empty_counterexample :
    get_rule stateC10 "" = .rule { rule_number := "", title := "Untitled", chunks := [] } ∧
    get_rule stateC10 "" ≠ .rule { rule_number := "LCvR 5.1", title := "Filing", chunks := [] } := by
  refine ⟨rfl, fun h => ?_⟩
  rw [show get_rule stateC10 ""
    = GetRuleResult.rule { rule_number := "", title := "Untitled", chunks := [] } from rfl] at h
  injection h with h2
  exact absurd (congrArg RuleFile.title h2) (by decide)

/-- C10 (amended): whenever at least one rule document is loaded, the
empty-identifier lookup never reaches the not-found branch (nor the chunk
branch): if the empty string is itself a stored key its document is
returned by the exact match, and otherwise the case-insensitive substring
fallback matches the first stored key (every key contains the empty string)
and returns the first document in insertion order. -/
theorem get_rule_empty_finds_some (st : RulesState) (kv : String × RuleFile)
    (rest : List (String × RuleFile)) (hcache : st.rulesCache = kv :: rest) :
    get_rule st "" = .rule (match mapGet st.rulesCache "" with
      | some r => r
      | none => kv.2) := by
  unfold get_rule
  cases hget : mapGet st.rulesCache "" with
  | some r => simp only [hget]
  | none =>
      have hget' : mapGet (kv :: rest) "" = none := by
        rw [← hcache]
        exact hget
      simp only [hget, hcache]
      rw [List.find?_cons_of_pos _
        (by simp [show toLowerS "" = "" from rfl, strIncludes_empty])]
      simp only [hget']

/-- Witness for C10 (amended) at a one-document index. -/
theorem get_rule_empty_finds_some_witness :
    ({ rulesCache := [("LCvR 7", { rule_number := "LCvR 7", title := "Motions", chunks := [] })],
       allChunks := [] } : RulesState).rulesCache
      = ("LCvR 7", { rule_number := "LCvR 7", title := "Motions", chunks := [] }) :: [] ∧
    get_rule
      { rulesCache := [("LCvR 7", { rule_number := "LCvR 7", title := "Motions", chunks := [] })],
        allChunks := [] } ""
      = .rule (match mapGet
          ({ rulesCache := [("LCvR 7", { rule_number := "LCvR 7", title := "Motions", chunks := [] })],
             allChunks := [] } : RulesState).rulesCache "" with
        | some r => r
        | none => { rule_number := "LCvR 7", title := "Motions", chunks := [] }) :=
  ⟨rfl, get_rule_empty_finds_some _ _ [] rfl⟩

/-! ## Lemmas for the citation-regex proofs -/

theorem firstDown_eq_of_some {f : Nat → Option α} {n : Nat} {v : α}
    (hn : 1 ≤ n) (h : f n = some v) : firstDown f n = some v := by
  cases n with
  | zero => omega
  | succ m => simp [firstDown, h]

theorem runLen_le_length (p : Char → Bool) (l : List Char) :
    runLen p l ≤ l.length := by
  induction l with
  | nil => exact Nat.le_refl _
  | cons c t ih =>
      simp only [runLen, List.length_cons]
      by_cases hp : p c = true
      · simp only [hp, if_true]
        omega
      · simp only [Bool.not_eq_true] at hp
        rw [hp]
        simp

theorem string_mk_data (s : String) : String.mk s.data = s := rfl

theorem getLast_mem_drop {l : List Char} {k : Nat} (hk : k < l.length)
    (h : l ≠ []) : l.getLast h ∈ l.drop k := by
  induction l generalizing k with
  | nil => simp at hk
  | cons c t ih =>
      cases k with
      | zero => exact List.getLast_mem h
      | succ k =>
          simp only [List.length_cons] at hk
          have ht : t ≠ [] := by
            intro hnil
            rw [hnil] at hk
            simp at hk
          rw [List.getLast_cons ht, List.drop_succ_cons]
          exact ih (Nat.lt_of_succ_lt_succ hk) ht

/-- If `X` has a non-whitespace character, then `X ++ ' ' :: P` has no
decomposition into an all-whitespace part followed by an all-digit part
that reaches the end: the blank would land in the digit part, or all of
`X` would have to be whitespace. -/
theorem no_ws_digit_split {X P : List Char} {w : Char} (hw : w ∈ X)
    (hwns : isJsWs w = false)
    {a b : List Char} (hall : X ++ ' ' :: P = a ++ b)
    (haws : ∀ c ∈ a, isJsWs c = true) (hbd : ∀ c ∈ b, isDigitC c = true) :
    False := by
  rcases List.append_eq_append_iff.mp hall with ⟨a', ha', -⟩ | ⟨c', -, hd'⟩
  · have h1 : isJsWs w = true :=
      haws _ (by rw [ha']; exact List.mem_append_left a' hw)
    rw [hwns] at h1
    exact Bool.false_ne_true h1
  · have h2 : isDigitC ' ' = true :=
      hbd ' ' (by rw [hd']; exact List.mem_append_right c' (List.mem_cons_self _ _))
    exact absurd h2 (by decide)

/-- The `\s+(\d+)$` tail of the pattern cannot match `X ++ ' ' :: P` when
`X` still holds a non-whitespace character: every candidate split fails. -/
theorem wsPageStage_none (cs rest2 : List Char) (n1 n3 : Nat)
    {X P : List Char} {w : Char} (hw : w ∈ X) (hwns : isJsWs w = false) :
    wsPageStage cs rest2 (X ++ ' ' :: P) n1 n3 = none := by
  unfold wsPageStage
  apply firstDown_eq_none
  intro n4 h41 h42
  unfold pageStage
  apply firstDown_eq_none
  intro n5 h51 h52
  rw [if_neg]
  intro hdrop
  have hall : X ++ ' ' :: P
      = (X ++ ' ' :: P).take n4 ++ ((X ++ ' ' :: P).drop n4).take n5 := by
    conv_lhs => rw [← List.take_append_drop n4 (X ++ ' ' :: P)]
    congr 1
    conv_lhs => rw [← List.take_append_drop n5 ((X ++ ' ' :: P).drop n4)]
    rw [hdrop, List.append_nil]
  exact no_ws_digit_split hw hwns hall
    (all_take_of_le_runLen h42) (all_take_of_le_runLen h52)

/-- The `\s+(\d+)$` tail of the pattern matches `' ' :: P` exactly when `P`
is the nonempty all-digit page, consuming the blank and all of `P`. -/
theorem wsPageStage_digits (cs rest2 : List Char) (n1 n3 : Nat)
    {P : List Char} (hP : P ≠ []) (hPd : ∀ c ∈ P, isDigitC c = true) :
    wsPageStage cs rest2 (' ' :: P) n1 n3
      = some (String.mk (cs.take n1), String.mk (rest2.take n3), String.mk P) := by
  have hrun1 : runLen isJsWs (' ' :: P) = 1 := by
    cases P with
    | nil => rfl
    | cons x t =>
        have hx : isJsWs x = false :=
          not_isJsWs_of_isDigitC (hPd x (List.mem_cons_self x t))
        have hsp : isJsWs ' ' = true := by decide
        simp [runLen, hx, hsp]
  unfold wsPageStage
  rw [hrun1]
  apply firstDown_eq_of_some (Nat.le_refl 1)
  show pageStage cs rest2 ((' ' :: P).drop 1) n1 n3 = _
  rw [show (' ' :: P).drop 1 = P from rfl]
  unfold pageStage
  rw [runLen_all hPd]
  have hlen : 1 ≤ P.length := by
    cases P with
    | nil => exact absurd rfl hP
    | cons x t => simp
  apply firstDown_eq_of_some hlen
  rw [List.drop_length, if_pos rfl, List.take_length]

/-- The citation regex on a well-formed single-space citation
`<digits> <reporter> <digits>`: JavaScript's backtracking search commits to
the maximal volume digits, one blank, the shortest reporter capture that
leaves a blank and trailing digits — which is exactly the reporter — and
the page digits. -/
theorem matchCitationRegex_wellFormed {V R P : String}
    (hVne : V.data ≠ []) (hVd : ∀ c ∈ V.data, isDigitC c = true)
    (hRne : R.data ≠ []) (hRc : ∀ c ∈ R.data, isReporterChar c = true)
    (hRhead : ∀ c, R.data.head? = some c → isJsWs c = false)
    (hRlast : ∀ c, R.data.getLast? = some c → isJsWs c = false)
    (hPne : P.data ≠ []) (hPd : ∀ c ∈ P.data, isDigitC c = true) :
    matchCitationRegex (V ++ " " ++ R ++ " " ++ P) = some (V, R, P) := by
  have hcs : (V ++ " " ++ R ++ " " ++ P).data
      = V.data ++ ' ' :: (R.data ++ ' ' :: P.data) := by
    simp only [string_data_append]
    simp [List.append_assoc]
  unfold matchCitationRegex
  rw [hcs]
  rw [runLen_append_not hVd (by decide : isDigitC ' ' = false)]
  apply firstDown_eq_of_some (List.length_pos.mpr hVne)
  show wsReporterStage (V.data ++ ' ' :: (R.data ++ ' ' :: P.data))
      ((V.data ++ ' ' :: (R.data ++ ' ' :: P.data)).drop V.data.length)
      V.data.length = some (V, R, P)
  rw [List.drop_left]
  unfold wsReporterStage
  have hrun2 : runLen isJsWs (' ' :: (R.data ++ ' ' :: P.data)) = 1 := by
    cases hRd : R.data with
    | nil => exact absurd hRd hRne
    | cons rh rt =>
        have hrh : isJsWs rh = false := hRhead rh (by rw [hRd]; rfl)
        have hsp : isJsWs ' ' = true := by decide
        simp [runLen, hrh, hsp]
  rw [hrun2]
  apply firstDown_eq_of_some (Nat.le_refl 1)
  show reporterStage (V.data ++ ' ' :: (R.data ++ ' ' :: P.data))
      ((' ' :: (R.data ++ ' ' :: P.data)).drop 1) V.data.length = some (V, R, P)
  rw [show (' ' :: (R.data ++ ' ' :: P.data)).drop 1 = R.data ++ ' ' :: P.data from rfl]
  unfold reporterStage
  have hAllRep : ∀ c ∈ R.data ++ ' ' :: P.data, isReporterChar c = true := by
    intro c hc
    rcases List.mem_append.mp hc with hc | hc
    · exact hRc c hc
    · rcases List.mem_cons.mp hc with rfl | hc
      · decide
      · exact isReporterChar_of_isDigitC (hPd c hc)
  rw [runLen_all hAllRep]
  apply firstFrom_first_some (j := R.data.length)
  · exact List.length_pos.mpr hRne
  · rw [List.length_append, List.length_cons]
    omega
  · intro k hk1 hk2
    show wsPageStage _ _ ((R.data ++ ' ' :: P.data).drop k) V.data.length k = none
    rw [List.drop_append_of_le_length (Nat.le_of_lt hk2)]
    exact wsPageStage_none _ _ _ _ (getLast_mem_drop hk2 hRne)
      (hRlast _ (List.getLast?_eq_getLast _ hRne))
  · show wsPageStage _ _ ((R.data ++ ' ' :: P.data).drop R.data.length)
      V.data.length R.data.length = some (V, R, P)
    rw [List.drop_left]
    rw [wsPageStage_digits _ _ _ _ hPne hPd]
    rw [List.take_left, List.take_left]

/-- `trim` is the identity on a string that neither begins nor ends with
whitespace. -/
theorem jsTrim_eq_self {R : String}
    (hhead : ∀ c, R.data.head? = some c → isJsWs c = false)
    (hlast : ∀ c, R.data.getLast? = some c → isJsWs c = false) :
    jsTrim R = R := by
  unfold jsTrim
  have h1 : R.data.dropWhile isJsWs = R.data := by
    cases hRd : R.data with
    | nil => rfl
    | cons x t =>
        rw [List.dropWhile_cons_of_neg]
        simp [hhead x (by rw [hRd]; rfl)]
  rw [h1]
  have h2 : R.data.reverse.dropWhile isJsWs = R.data.reverse := by
    cases hRr : R.data.reverse with
    | nil => rfl
    | cons x t =>
        rw [List.dropWhile_cons_of_neg]
        have hx : R.data.getLast? = some x := by
          rw [List.getLast?_eq_head?_reverse, hRr]
          rfl
        simp [hlast x hx]
  rw [h2, List.reverse_reverse, string_mk_data]

/-- C3: a well-formed citation of the shape `<int> <reporter> <int>` —
nonempty digit volume, reporter of letters/digits/periods/spaces neither
beginning nor ending in whitespace, nonempty digit page, single-space
separated, e.g. `"550 U.S. 544"` — is parsed by `lookupCitation`'s regex
into volume, reporter and page, and the client issues a direct query to the
`/citations/` endpoint with exactly that triple, performing no full-text
search.  (`natOfDigits` models `parseInt` on the digit capture; the last
hypothesis keeps the volume inside JavaScript's safe-integer range, where
`parseInt` is exact.) -/
theorem lookupCitation_wellFormed_direct (V R P : String) (server : CitationServer)
    (hV : V ≠ "") (hVd : ∀ c ∈ V.data, isDigitC c = true)
    (hR : R ≠ "") (hRc : ∀ c ∈ R.data, isReporterChar c = true)
    (hRhead : ∀ c, R.data.head? = some c → isJsWs c = false)
    (hRlast : ∀ c, R.data.getLast? = some c → isJsWs c = false)
    (hP : P ≠ "") (hPd : ∀ c ∈ P.data, isDigitC c = true)
    (_hsafe : natOfDigits V.data < 2 ^ 53) :
    lookupCitationAction (V ++ " " ++ R ++ " " ++ P)
      = .citationsQuery { volume := natOfDigits V.data, reporter := R, page := P } ∧
    lookupCitation server (V ++ " " ++ R ++ " " ++ P)
      = server.citations { volume := natOfDigits V.data, reporter := R, page := P } := by
  have hne : ∀ s : String, s ≠ "" → s.data ≠ [] := fun s hs hd =>
    hs (by rw [← string_mk_data s, hd])
  have hmatch := matchCitationRegex_wellFormed (hne V hV) hVd (hne R hR) hRc
    hRhead hRlast (hne P hP) hPd
  have htrim : jsTrim R = R := jsTrim_eq_self hRhead hRlast
  constructor
  · unfold lookupCitationAction
    simp only [hmatch]
    rw [htrim]
  · unfold lookupCitation
    simp only [hmatch]
    rw [htrim]

/-- Witness for C3 at `"550 U.S. 544"`: volume 550, reporter `U.S.`,
page `"544"`, sent to the citations endpoint. -/
theorem lookupCitation_wellFormed_direct_witness :
    (∀ c ∈ ("550" : String).data, isDigitC c = true) ∧
    (∀ c ∈ ("U.S." : String).data, isReporterChar c = true) ∧
    (∀ c, ("U.S." : String).data.head? = some c → isJsWs c = false) ∧
    (∀ c, ("U.S." : String).data.getLast? = some c → isJsWs c = false) ∧
    natOfDigits ("550" : String).data < 2 ^ 53 ∧
    lookupCitationAction ("550" ++ " " ++ "U.S." ++ " " ++ "544")
      = .citationsQuery { volume := 550, reporter := "U.S.", page := "544" } := by
  refine ⟨by decide, by decide, ?_, ?_, by decide, ?_⟩
  · intro c hc
    rw [← Option.some.inj (show some 'U' = some c from hc)]
    decide
  · intro c hc
    rw [← Option.some.inj (show some '.' = some c from hc)]
    decide
  · exact (lookupCitation_wellFormed_direct "550" "U.S." "544"
      { citations := fun _ => .error "unused", search := fun _ => .error "unused" }
      (by decide) (by decide) (by decide) (by decide)
      (fun c hc => by rw [← Option.some.inj (show some 'U' = some c from hc)]; decide)
      (fun c hc => by rw [← Option.some.inj (show some '.' = some c from hc)]; decide)
      (by decide) (by decide) (by decide)).1

/-- `takeWhile` stops exactly at the first failing character. -/
theorem takeWhile_all_append {p : Char → Bool} {u : List Char} {w : Char}
    (v : List Char) (hu : ∀ c ∈ u, p c = true) (hw : p w = false) :
    (u ++ w :: v).takeWhile p = u := by
  induction u with
  | nil => simp [List.takeWhile_cons, hw]
  | cons x t ih =>
      simp only [List.cons_append, List.takeWhile_cons,
        hu x (List.mem_cons_self x t), if_true]
      rw [ih fun c hc => hu c (List.mem_cons_of_mem x hc)]

/-- Soundness of a citation-regex match: the subject splits as some prefix,
a whitespace character, and a nonempty all-digit run that reaches the end
of the string (the `\s+(\d+)$` tail of the pattern). -/
theorem matchCitationRegex_some_tail {s : String} {out : String × String × String}
    (h : matchCitationRegex s = some out) :
    ∃ A t5 w, s.data = A ++ w :: t5 ∧ isJsWs w = true ∧ t5 ≠ [] ∧
      ∀ c ∈ t5, isDigitC c = true := by
  unfold matchCitationRegex at h
  rcases firstDown_some_inv h with ⟨n1, -, -, h1⟩
  unfold wsReporterStage at h1
  rcases firstDown_some_inv h1 with ⟨n2, -, -, h2⟩
  unfold reporterStage at h2
  rcases firstFrom_some_inv h2 with ⟨n3, -, -, h3⟩
  unfold wsPageStage at h3
  rcases firstDown_some_inv h3 with ⟨n4, hn4, hn4r, h4⟩
  unfold pageStage at h4
  rcases firstDown_some_inv h4 with ⟨n5, hn5, hn5r, h5⟩
  by_cases hdrop : ((((s.data.drop n1).drop n2).drop n3).drop n4).drop n5 = []
  · rw [if_pos hdrop] at h5
    set rest3 := ((s.data.drop n1).drop n2).drop n3 with hrest3
    set rest4 := rest3.drop n4 with hrest4
    have ht4all : ∀ c ∈ rest3.take n4, isJsWs c = true := all_take_of_le_runLen hn4r
    have ht5all : ∀ c ∈ rest4.take n5, isDigitC c = true := all_take_of_le_runLen hn5r
    have ht4len : (rest3.take n4).length = n4 := by
      rw [List.length_take]
      exact Nat.min_eq_left (Nat.le_trans hn4r (runLen_le_length _ _))
    have ht5len : (rest4.take n5).length = n5 := by
      rw [List.length_take]
      exact Nat.min_eq_left (Nat.le_trans hn5r (runLen_le_length _ _))
    have ht4ne : rest3.take n4 ≠ [] := by
      intro hnil
      rw [hnil] at ht4len
      simp at ht4len
      omega
    have ht5ne : rest4.take n5 ≠ [] := by
      intro hnil
      rw [hnil] at ht5len
      simp at ht5len
      omega
    have hrest4eq : rest4 = rest4.take n5 := by
      conv_lhs => rw [← List.take_append_drop n5 rest4]
      rw [hdrop, List.append_nil]
    have hsplit : s.data
        = s.data.take n1 ++ ((s.data.drop n1).take n2 ++
            (((s.data.drop n1).drop n2).take n3 ++
              (rest3.take n4 ++ rest4.take n5))) := by
      rw [← hrest4eq, hrest4, List.take_append_drop, hrest3,
        List.take_append_drop, List.take_append_drop, List.take_append_drop]
    refine ⟨s.data.take n1 ++ ((s.data.drop n1).take n2 ++
        (((s.data.drop n1).drop n2).take n3 ++ (rest3.take n4).dropLast)),
      rest4.take n5, (rest3.take n4).getLast ht4ne, ?_,
      ht4all _ (List.getLast_mem ht4ne), ht5ne, ht5all⟩
    conv_lhs => rw [hsplit]
    conv_lhs =>
      rw [show rest3.take n4
        = (rest3.take n4).dropLast ++ [(rest3.take n4).getLast ht4ne] from
        (List.dropLast_append_getLast ht4ne).symm]
    simp [List.append_assoc]
  · rw [if_neg hdrop] at h5
    exact absurd h5 (by simp)

/-- The citation regex rejects any subject whose final space-separated
token is not purely numeric. -/
theorem matchCitationRegex_none_of_tail {B T : List Char} {s : String}
    (hs : s.data = B ++ ' ' :: T) (_hT : T ≠ [])
    (hTtok : ∀ c ∈ T, isJsWs c = false)
    (hTnn : ¬ ∀ c ∈ T, isDigitC c = true) :
    matchCitationRegex s = none := by
  cases hm : matchCitationRegex s with
  | none => rfl
  | some out =>
      exfalso
      rcases matchCitationRegex_some_tail hm with ⟨A, t5, w, hA, hw, ht5ne, ht5d⟩
      have hrev1 : s.data.reverse = t5.reverse ++ w :: A.reverse := by
        rw [hA]
        simp [List.reverse_append, List.append_assoc]
      have hrev2 : s.data.reverse = T.reverse ++ ' ' :: B.reverse := by
        rw [hs]
        simp [List.reverse_append, List.append_assoc]
      have htw1 : s.data.reverse.takeWhile (fun c => !isJsWs c) = t5.reverse := by
        rw [hrev1]
        exact takeWhile_all_append _
          (fun c hc => by
            rw [not_isJsWs_of_isDigitC (ht5d c (List.mem_reverse.mp hc))]
            rfl)
          (by rw [hw]; rfl)
      have htw2 : s.data.reverse.takeWhile (fun c => !isJsWs c) = T.reverse := by
        rw [hrev2]
        exact takeWhile_all_append _
          (fun c hc => by rw [hTtok c (List.mem_reverse.mp hc)]; rfl)
          (by decide)
      have : t5 = T := by
        have := htw1.symm.trans htw2
        exact List.reverse_injective this
      exact hTnn (this ▸ ht5d)

/-- C9: for a citation string `<int> <reporter> <tok>` whose page token is
not purely numeric (e.g. `"550 U.S. 544a"`, a page form the data model
allows for citations), `lookupCitation` does not query the citation
endpoint: the regex rejects the string, the full-text-search fallback runs
instead, and the returned results list is empty regardless of how many
matching clusters the server reports. -/
theorem lookupCitation_nonNumericPage_fallback (V R T : String)
    (server : CitationServer) (resp : SearchResponse)
    (_hV : V ≠ "") (_hVd : ∀ c ∈ V.data, isDigitC c = true)
    (_hR : R ≠ "") (_hRc : ∀ c ∈ R.data, isReporterChar c = true)
    (hTtok : ∀ c ∈ T.data, isJsWs c = false)
    (hTnn : ¬ ∀ c ∈ T.data, isDigitC c = true)
    (hsearch : server.search
        { q := "\"" ++ (V ++ " " ++ R ++ " " ++ T) ++ "\"", type := "o" }
      = .ok resp) :
    matchCitationRegex (V ++ " " ++ R ++ " " ++ T) = none ∧
    lookupCitationAction (V ++ " " ++ R ++ " " ++ T)
      = .searchFallback
          { q := "\"" ++ (V ++ " " ++ R ++ " " ++ T) ++ "\"", type := "o" } ∧
    lookupCitation server (V ++ " " ++ R ++ " " ++ T)
      = .ok { count := resp.count, results := [] } := by
  have hTne : T.data ≠ [] := by
    intro hnil
    exact hTnn fun c hc => absurd (hnil ▸ hc) (List.not_mem_nil c)
  have hcs : (V ++ " " ++ R ++ " " ++ T).data
      = (V.data ++ ' ' :: R.data) ++ ' ' :: T.data := by
    simp only [string_data_append]
    simp [List.append_assoc]
  have hnone : matchCitationRegex (V ++ " " ++ R ++ " " ++ T) = none :=
    matchCitationRegex_none_of_tail hcs hTne hTtok hTnn
  refine ⟨hnone, ?_, ?_⟩
  · unfold lookupCitationAction
    rw [hnone]
  · unfold lookupCitation
    rw [hnone, hsearch]
    rfl

/-- Witness for C9 at `"550 U.S. 544a"` and a server reporting 5 search
matches. -/
theorem lookupCitation_nonNumericPage_fallback_witness :
    (∀ c ∈ ("550" : String).data, isDigitC c = true) ∧
    (∀ c ∈ ("U.S." : String).data, isReporterChar c = true) ∧
    (∀ c ∈ ("544a" : String).data, isJsWs c = false) ∧
    (¬ ∀ c ∈ ("544a" : String).data, isDigitC c = true) ∧
    matchCitationRegex ("550" ++ " " ++ "U.S." ++ " " ++ "544a") = none ∧
    lookupCitation
      { citations := fun _ => .error "unused",
        search := fun _ => .ok { count := 5, next := none, previous := none, results := [] } }
      ("550" ++ " " ++ "U.S." ++ " " ++ "544a")
      = .ok { count := 5, results := [] } := by
  refine ⟨by decide, by decide, by decide, by decide, ?_, ?_⟩
  · exact (lookupCitation_nonNumericPage_fallback "550" "U.S." "544a"
      { citations := fun _ => .error "unused",
        search := fun _ => .ok { count := 5, next := none, previous := none, results := [] } }
      { count := 5, next := none, previous := none, results := [] }
      (by decide) (by decide) (by decide) (by decide) (by decide) (by decide) rfl).1
  · exact (lookupCitation_nonNumericPage_fallback "550" "U.S." "544a"
      { citations := fun _ => .error "unused",
        search := fun _ => .ok { count := 5, next := none, previous := none, results := [] } }
      { count := 5, next := none, previous := none, results := [] }
      (by decide) (by decide) (by decide) (by decide) (by decide) (by decide) rfl).2.2
